import Mathlib

/-
Verification of the eda-datos-bancarios pipeline
(src/Brutos-Transformados/limpieza_final.py, primary variant, and
src/Notebooks/limpieza_borrador.py, draft variant).

The tables are modelled as ordered association lists of named columns;
each column is a list of cell values.  Cell values are strings, rational
numbers (covering the numeric dtypes), calendar dates represented as a
whole-day count, or the missing value NaN/NaT (`Val.na`).  Fallible
pandas operations (column indexing of an absent label, `dropna` with an
absent subset label) are modelled in the `Except String` monad, the
error being the KeyError that pandas raises.  `astype("category")` does
not change any cell value, so it is the identity at this level of
modelling and is noted where it occurs.  Column-name lowercasing is
modelled for the ASCII letters, which covers every name the scripts
touch.
-/

namespace EdaBancarios

/-- A cell of the table: string, numeric, calendar date (whole-day
count), or missing (NaN/NaT). -/
inductive Val where
  | str (s : String)
  | num (q : ℚ)
  | date (d : ℤ)
  | na
deriving DecidableEq, Repr

def Val.isNa : Val → Bool
  | .na => true
  | _ => false

/-- A dataframe: an ordered list of named columns. -/
structure Table where
  cols : List (String × List Val)
deriving DecidableEq, Repr

/-- `df[c]` as a read: the first column named `c`, if any. -/
def getVals : List (String × List Val) → String → Option (List Val)
  | [], _ => none
  | p :: ps, c => if p.1 = c then some p.2 else getVals ps c

def getCol (t : Table) (c : String) : Option (List Val) :=
  getVals t.cols c

/-- `df[c] = v` as a write: replace the first column named `c`, or
append a new column at the end, as pandas does. -/
def setVals : List (String × List Val) → String → List Val → List (String × List Val)
  | [], c, v => [(c, v)]
  | p :: ps, c, v => if p.1 = c then (c, v) :: ps else p :: setVals ps c v

def setCol (t : Table) (c : String) (v : List Val) : Table :=
  ⟨setVals t.cols c v⟩

def colNames (t : Table) : List String :=
  t.cols.map Prod.fst

/-- All columns have one common length (pandas tables are rectangular). -/
def wfT (t : Table) : Bool :=
  match t.cols with
  | [] => true
  | c :: cs => cs.all fun c2 => c2.2.length = c.2.length

/-! ### Column-name normalization (`df.columns.str.lower().str.replace(" ", "_")`) -/

/-- The lowercase ASCII alphabet, used as a lookup table for lowercasing. -/
def lcAlphabet : List Char :=
  "abcdefghijklmnopqrstuvwxyz".data

/-- ASCII lowercasing of one character (`str.lower()` on the names the
scripts use, which are all ASCII). -/
def lowerChar (c : Char) : Char :=
  if 65 ≤ c.toNat ∧ c.toNat ≤ 90 then lcAlphabet.getD (c.toNat - 65) c else c

/-- One character of the snake-case pass: `lower()` then `replace(" ", "_")`;
lowercasing fixes the space, so the composition acts characterwise. -/
def snChar (c : Char) : Char :=
  if c = ' ' then '_' else lowerChar c

def snakeName (s : String) : String :=
  ⟨s.data.map snChar⟩

def snakeCols (t : Table) : Table :=
  ⟨t.cols.map fun p => (snakeName p.1, p.2)⟩

/-! ### The fixed configuration constants of `limpiar_datos` -/

def columnas_a_eliminar : List String :=
  ["day_of_week", "day_name", "year", "month", "day", "latitud", "longitud"]

def columnas_traducidas : List (String × String) :=
  [("job", "ocupacion"), ("marital", "estado_civil"), ("education", "educacion"),
   ("housing", "tiene_hipoteca"), ("loan", "tiene_prestamo"), ("contact", "tipo_contacto"),
   ("duration", "duracion_llamada"), ("campaign", "contactos_actuales"),
   ("pdays", "dias_ultimo_contacto"), ("previous", "contactos_previos"),
   ("poutcome", "resultado_campana_anterior"), ("emp_var_rate", "tasa_empleo"),
   ("cons_price_idx", "indice_precio_consumidor"), ("cons_conf_idx", "indice_confianza_consumidor"),
   ("euribor3m", "tasa_interes_3m"), ("nr_employed", "num_empleados"),
   ("y", "suscribio"), ("income", "ingreso"), ("kidhome", "hijos_ninos"),
   ("teenhome", "hijos_adolescentes"), ("dt_customer", "fecha_registro"),
   ("numwebvisitsmonth", "visitas_web_mes"), ("pdays_category", "categoria_dias_ultimo_contacto"),
   ("year_registered", "ano_registro"), ("month_registered", "mes_registro"),
   ("contact_date", "fecha_contacto")]

def columnas_clave : List String :=
  ["ocupacion", "estado_civil", "educacion"]

/-- `df.drop(columns=..., errors="ignore")`: silently keeps absent names. -/
def dropColumns (names : List String) (t : Table) : Table :=
  ⟨t.cols.filter fun p => !(names.contains p.1)⟩

def renameFn (s : String) : String :=
  (columnas_traducidas.lookup s).getD s

/-- `df.rename(columns=columnas_traducidas)`: names not in the mapping
pass through unchanged. -/
def renombrar (t : Table) : Table :=
  ⟨t.cols.map fun p => (renameFn p.1, p.2)⟩

/-! ### Date parsing (`pd.to_datetime(..., errors="coerce")`) -/

def daysInMonth (y m : ℕ) : ℕ :=
  if m = 2 then (if (y % 4 = 0 ∧ y % 100 ≠ 0) ∨ y % 400 = 0 then 29 else 28)
  else if m = 4 ∨ m = 6 ∨ m = 9 ∨ m = 11 then 30 else 31

/-- Whole-day count of the civil date `y-m-d` (proleptic Gregorian).
All intermediate quantities are nonnegative, so truncating integer
division agrees with floor division here. -/
def daysFromCivil (y m d : ℕ) : ℤ :=
  let y2 : ℕ := if 2 < m then y else y - 1
  let m2 : ℕ := if 2 < m then m - 3 else m + 9
  365 * (y2 : ℤ) + ((y2 / 4 : ℕ) : ℤ) - ((y2 / 100 : ℕ) : ℤ) + ((y2 / 400 : ℕ) : ℤ)
    + (((153 * m2 + 2) / 5 : ℕ) : ℤ) + (d : ℤ) - 1

/-- Split a character list on the dash, like `str.split("-")`. -/
def splitDashes : List Char → List (List Char)
  | [] => [[]]
  | c :: cs =>
    match splitDashes cs with
    | [] => if c = '-' then [[], [c]] else [[c]]
    | g :: gs => if c = '-' then [] :: g :: gs else (c :: g) :: gs

/-- Read a nonempty all-digit character list as a number. -/
def digitsToNat (l : List Char) : Option ℕ :=
  if l ≠ [] ∧ l.all Char.isDigit
  then some (l.foldl (fun n c => n * 10 + (c.toNat - 48)) 0)
  else none

/-- Parse an ISO `YYYY-MM-DD` string into a day count; `none` on any
malformed input (which `errors="coerce"` turns into NaT). -/
def parseDate (s : String) : Option ℤ :=
  match splitDashes s.data with
  | [ys, ms, ds] =>
    match digitsToNat ys, digitsToNat ms, digitsToNat ds with
    | some y, some m, some d =>
      if ys.length = 4 ∧ 1 ≤ m ∧ m ≤ 12 ∧ 1 ≤ d ∧ d ≤ daysInMonth y m
      then some (daysFromCivil y m d) else none
    | _, _, _ => none
  | _ => none

/-- Cell-level behaviour of `pd.to_datetime(col, errors="coerce")`:
dates are kept, strings are parsed (unparseable becomes NaT), missing
stays missing, anything else coerces to NaT. -/
def parseVal : Val → Val
  | .str s => (parseDate s).elim Val.na Val.date
  | .date d => .date d
  | .num _ => .na
  | .na => .na

/-- `df[c] = pd.to_datetime(df[c], errors="coerce")`: the read of an
absent column raises a KeyError. -/
def to_datetime (c : String) (t : Table) : Except String Table :=
  match getCol t c with
  | some vs => .ok (setCol t c (vs.map parseVal))
  | none => .error ("KeyError: " ++ c)

/-! ### Row dropping (`df.dropna(subset=...)`) -/

/-- Keep the values at the indices satisfying `p`, starting at index `i`. -/
def filterIdx (p : ℕ → Bool) : ℕ → List Val → List Val
  | _, [] => []
  | i, v :: vs => if p i then v :: filterIdx p (i + 1) vs else filterIdx p (i + 1) vs

/-- Row `i` survives the subset-dropna iff every subset column is
non-missing there. -/
def keepRow (t : Table) (keys : List String) (i : ℕ) : Bool :=
  keys.all fun k =>
    match getCol t k with
    | some vs => !(vs.getD i Val.na).isNa
    | none => true

def filterRows (t : Table) (p : ℕ → Bool) : Table :=
  ⟨t.cols.map fun c => (c.1, filterIdx p 0 c.2)⟩

/-- `df.dropna(subset=keys)`: raises a KeyError when a subset label is
absent, otherwise drops every row missing one of the subset columns. -/
def dropnaSubset (keys : List String) (t : Table) : Except String Table :=
  if keys.all fun k => (getCol t k).isSome
  then .ok (filterRows t (keepRow t keys))
  else .error "KeyError: subset"

/-! ### Median fill (`df.fillna(df.median(numeric_only=True))`) -/

def insSorted (q : ℚ) : List ℚ → List ℚ
  | [] => [q]
  | x :: xs => if q ≤ x then q :: x :: xs else x :: insSorted q xs

def sortQ (l : List ℚ) : List ℚ :=
  l.foldr insSorted []

/-- The statistical median pandas computes: middle element of the
sorted non-missing values, or the mean of the two middle elements. -/
def median (l : List ℚ) : Option ℚ :=
  let s := sortQ l
  let n := s.length
  if n = 0 then none
  else if n % 2 = 1 then some (s.getD (n / 2) 0)
  else some ((s.getD (n / 2 - 1) 0 + s.getD (n / 2) 0) / 2)

def colNums (vs : List Val) : List ℚ :=
  vs.filterMap fun v =>
    match v with
    | .num q => some q
    | _ => none

/-- A column counts as numeric (pandas numeric dtype) when every cell
is a number or missing; object/string/date columns are skipped by
`median(numeric_only=True)`. -/
def isNumericCol (vs : List Val) : Bool :=
  vs.all fun v =>
    match v with
    | .num _ => true
    | .na => true
    | _ => false

/-- Median fill of one column: numeric columns have their missing cells
replaced by the column median; an all-missing numeric column has no
median (pandas: a NaN median fills nothing); other columns are untouched. -/
def fillVals (vs : List Val) : List Val :=
  if isNumericCol vs then
    match median (colNums vs) with
    | some m => vs.map fun v => if v.isNa then Val.num m else v
    | none => vs
  else vs

def fillna (t : Table) : Table :=
  ⟨t.cols.map fun c => (c.1, fillVals c.2)⟩

/-! ### The Cleaner (`limpiar_datos`, primary variant)

The five `astype("category")` casts change no cell value (they only
retag the dtype), so they are the identity in this model and are elided
between the date parsing and the row drop. -/

def limpiar_rename (t : Table) : Table :=
  renombrar (snakeCols (dropColumns columnas_a_eliminar t))

def limpiar_fechas (t : Table) : Except String Table :=
  match to_datetime "fecha_registro" (limpiar_rename t) with
  | .ok t1 => to_datetime "fecha_contacto" t1
  | .error e => .error e

def limpiar_pre (t : Table) : Except String Table :=
  match limpiar_fechas t with
  | .ok t2 => dropnaSubset columnas_clave t2
  | .error e => .error e

def limpiar_datos (t : Table) : Except String Table :=
  match limpiar_pre t with
  | .ok tp => .ok (fillna tp)
  | .error e => .error e

/-! ### The Transformer (`transformar_datos`, primary variant) -/

/-- `(fecha_contacto - fecha_registro).dt.days` on one row: the exact
whole-day difference, or missing when either operand is missing. -/
def subDias : Val → Val → Val
  | .date a, .date b => .num ((a - b : ℤ) : ℚ)
  | _, _ => .na

/-- `pd.cut(d, bins=[0, 100, 300, inf], labels=[Corta, Media, Larga],
right=False)` on one cell: left-closed right-open buckets; values below
the lowest edge, and missing values, map to missing. -/
def categoriaOf : Val → Val
  | .num q =>
    if 0 ≤ q then
      if q < 100 then .str "Corta"
      else if q < 300 then .str "Media"
      else .str "Larga"
    else .na
  | _ => .na

def transformar_datos (t : Table) : Except String Table :=
  match getCol t "fecha_contacto" with
  | none => .error "KeyError: fecha_contacto"
  | some cs =>
    match getCol t "fecha_registro" with
    | none => .error "KeyError: fecha_registro"
    | some rs =>
      let t1 := setCol t "dias_desde_registro" (List.zipWith subDias cs rs)
      match getCol t1 "duracion_llamada" with
      | none => .error "KeyError: duracion_llamada"
      | some ds => .ok (setCol t1 "categoria_duracion" (ds.map categoriaOf))

/-! ### The Transformer of the draft variant (`limpieza_borrador.py`):
re-drops rows missing either date before the day count, and re-fills
missing durations with the column median before bucketing. -/

def fillSeriesMedian (vs : List Val) : List Val :=
  match median (colNums vs) with
  | some m => vs.map fun v => if v.isNa then Val.num m else v
  | none => vs

def transformar_datos_borrador (t : Table) : Except String Table :=
  match dropnaSubset ["fecha_contacto", "fecha_registro"] t with
  | .error e => .error e
  | .ok t0 =>
    match getCol t0 "fecha_contacto" with
    | none => .error "KeyError: fecha_contacto"
    | some cs =>
      match getCol t0 "fecha_registro" with
      | none => .error "KeyError: fecha_registro"
      | some rs =>
        let t1 := setCol t0 "dias_desde_registro" (List.zipWith subDias cs rs)
        match getCol t1 "duracion_llamada" with
        | none => .error "KeyError: duracion_llamada"
        | some ds =>
          let t2 := setCol t1 "duracion_llamada" (fillSeriesMedian ds)
          match getCol t2 "duracion_llamada" with
          | none => .error "KeyError: duracion_llamada"
          | some ds2 => .ok (setCol t2 "categoria_duracion" (ds2.map categoriaOf))

/-! ### The Loader and the driver (`cargar_datos`, `__main__`) -/

/-- Outcome of `pd.read_csv` on the given path: a parsed table, a
missing file, or any other I/O or parse error. -/
inductive ReadOutcome where
  | ok (t : Table)
  | fileNotFound
  | otherError (e : String)
deriving DecidableEq, Repr

/-- `cargar_datos`: only `FileNotFoundError` is caught (returning `None`
after the failure diagnostic); every other error propagates.  The
returned pair is (result, diagnostic printed). -/
def cargar_datos (lectura : ReadOutcome) : Except String (Option Table × String) :=
  match lectura with
  | .ok t => .ok (some t, "Datos cargados correctamente.")
  | .fileNotFound => .ok (none, "Error: Archivo no encontrado.")
  | .otherError e => .error e

/-- The `__main__` driver of the primary script, recorded as the list of
stages it runs: after a `None` load it runs nothing further. -/
def etapas_ejecutadas (lectura : ReadOutcome) : Except String (List String) :=
  match cargar_datos lectura with
  | .error e => .error e
  | .ok r =>
    match r.1 with
    | none => .ok ["cargar_datos"]
    | some df =>
      match limpiar_datos df with
      | .error e => .error e
      | .ok df1 =>
        match transformar_datos df1 with
        | .error e => .error e
        | .ok _ =>
          .ok ["cargar_datos", "limpiar_datos", "transformar_datos", "to_csv",
               "generar_visualizaciones"]

/-! ### Basic lemmas about the table operations -/

theorem table_eq {l1 l2 : List (String × List Val)} (h : l1 = l2) :
    (⟨l1⟩ : Table) = ⟨l2⟩ := by
  rw [h]

theorem getVals_setVals_self (l : List (String × List Val)) (c : String) (v : List Val) :
    getVals (setVals l c v) c = some v := by
  induction l with
  | nil => simp [setVals, getVals]
  | cons p ps ih =>
    by_cases h : p.1 = c
    · simp [setVals, h, getVals]
    · simp [setVals, h, getVals, ih]

theorem getVals_setVals_ne (l : List (String × List Val)) (c n : String) (v : List Val)
    (h : n ≠ c) : getVals (setVals l c v) n = getVals l n := by
  have hcn : ¬ c = n := fun hh => h hh.symm
  induction l with
  | nil => simp [setVals, getVals, hcn]
  | cons p ps ih =>
    by_cases hp : p.1 = c
    · simp [setVals, getVals, hp, hcn]
    · by_cases hn : p.1 = n
      · simp [setVals, getVals, hp, hn, h]
      · simp [setVals, getVals, hp, hn, ih]

theorem setVals_getVals_self (l : List (String × List Val)) (c : String) (v : List Val)
    (h : getVals l c = some v) : setVals l c v = l := by
  induction l with
  | nil => simp [getVals] at h
  | cons p ps ih =>
    by_cases hp : p.1 = c
    · simp only [getVals, if_pos hp, Option.some.injEq] at h
      simp only [setVals, if_pos hp]
      rw [← h, ← hp]
    · simp only [getVals, if_neg hp] at h
      simp only [setVals, if_neg hp, ih h]

theorem getCol_setCol_self (t : Table) (c : String) (v : List Val) :
    getCol (setCol t c v) c = some v :=
  getVals_setVals_self t.cols c v

theorem getCol_setCol_ne (t : Table) (c n : String) (v : List Val) (h : n ≠ c) :
    getCol (setCol t c v) n = getCol t n :=
  getVals_setVals_ne t.cols c n v h

theorem setCol_self (t : Table) (c : String) (v : List Val) (h : getCol t c = some v) :
    setCol t c v = t := by
  cases t with
  | mk l => exact table_eq (setVals_getVals_self l c v h)

theorem getVals_map_snd (f : List Val → List Val) (l : List (String × List Val)) (n : String) :
    getVals (l.map fun c => (c.1, f c.2)) n = (getVals l n).map f := by
  induction l with
  | nil => simp [getVals]
  | cons p ps ih =>
    by_cases h : p.1 = n
    · simp [getVals, h]
    · simp [getVals, h, ih]

theorem getCol_fillna (t : Table) (n : String) :
    getCol (fillna t) n = (getCol t n).map fillVals :=
  getVals_map_snd fillVals t.cols n

theorem getCol_filterRows (t : Table) (p : ℕ → Bool) (n : String) :
    getCol (filterRows t p) n = (getCol t n).map (filterIdx p 0) :=
  getVals_map_snd (filterIdx p 0) t.cols n

theorem get_of_get?_eq (vs : List Val) (j : ℕ) (v d : Val) (h : vs.get? j = some v) :
    vs.getD j d = v := by
  induction vs generalizing j with
  | nil => simp at h
  | cons w ws ih =>
    cases j with
    | zero =>
      have hwv : w = v := Option.some.inj h
      rw [← hwv]
      rfl
    | succ j => exact ih j h

theorem mem_filterIdx {p : ℕ → Bool} {v : Val} :
    ∀ {vs : List Val} {i : ℕ}, v ∈ filterIdx p i vs →
      ∃ j, p (i + j) = true ∧ vs.get? j = some v := by
  intro vs
  induction vs with
  | nil => intro i h; simp [filterIdx] at h
  | cons w ws ih =>
    intro i h
    by_cases hp : p i
    · rw [filterIdx, if_pos hp] at h
      rcases List.mem_cons.mp h with h1 | h2
      · exact ⟨0, by simpa [h1] using hp, by simp [h1]⟩
      · rcases ih h2 with ⟨j, hj, hg⟩
        exact ⟨j + 1, by rw [show i + (j + 1) = i + 1 + j by omega]; exact hj, by simpa using hg⟩
    · rw [filterIdx, if_neg hp] at h
      rcases ih h with ⟨j, hj, hg⟩
      exact ⟨j + 1, by rw [show i + (j + 1) = i + 1 + j by omega]; exact hj, by simpa using hg⟩

theorem filterIdx_all {p : ℕ → Bool} :
    ∀ {vs : List Val} {i : ℕ}, (∀ j, j < vs.length → p (i + j) = true) →
      filterIdx p i vs = vs := by
  intro vs
  induction vs with
  | nil => intro i _; rfl
  | cons w ws ih =>
    intro i h
    have h0 : p i = true := by simpa using h 0 (by simp)
    rw [filterIdx, if_pos h0]
    have : filterIdx p (i + 1) ws = ws := by
      apply ih
      intro j hj
      have := h (j + 1) (by simpa using Nat.succ_lt_succ hj)
      rwa [show i + (j + 1) = i + 1 + j by omega] at this
    rw [this]

theorem map_fill_of_no_na {vs : List Val} {x : Val} (h : ∀ v ∈ vs, v.isNa = false) :
    (vs.map fun v => if v.isNa then x else v) = vs := by
  induction vs with
  | nil => rfl
  | cons w ws ih =>
    have hw := h w (by simp)
    have hws := ih fun v hv => h v (by simp [hv])
    simp [hw, hws]

theorem map_fill_no_na_out {vs : List Val} {m : ℚ} :
    ∀ w ∈ vs.map fun v => if v.isNa then Val.num m else v, w.isNa = false := by
  intro w hw
  rcases List.mem_map.mp hw with ⟨v, _, hv⟩
  by_cases h : v.isNa = true
  · rw [← hv, if_pos h]; rfl
  · rw [← hv, if_neg h]; simpa using h

theorem fillVals_of_no_na {vs : List Val} (h : ∀ v ∈ vs, v.isNa = false) :
    fillVals vs = vs := by
  unfold fillVals
  split
  · split
    · exact map_fill_of_no_na h
    · rfl
  · rfl

theorem colNums_eq_nil {vs : List Val}
    (h : ∀ v ∈ vs, v.isNa = true ∨ ∃ d, v = Val.date d) : colNums vs = [] := by
  rw [colNums, List.filterMap_eq_nil_iff]
  intro v hv
  rcases h v hv with hna | ⟨d, hd⟩
  · cases v <;> simp_all [Val.isNa]
  · rw [hd]

theorem fillVals_of_dates {vs : List Val}
    (h : ∀ v ∈ vs, v.isNa = true ∨ ∃ d, v = Val.date d) : fillVals vs = vs := by
  unfold fillVals
  rw [colNums_eq_nil h]
  split
  · rfl
  · rfl

theorem fillVals_idem (vs : List Val) : fillVals (fillVals vs) = fillVals vs := by
  by_cases hn : isNumericCol vs = true
  · cases hm : median (colNums vs) with
    | none =>
      have h1 : fillVals vs = vs := by unfold fillVals; rw [if_pos hn, hm]
      rw [h1, h1]
    | some m =>
      have h1 : fillVals vs = vs.map fun v => if v.isNa then Val.num m else v := by
        unfold fillVals; rw [if_pos hn, hm]
      rw [h1]
      exact fillVals_of_no_na map_fill_no_na_out
  · have h1 : fillVals vs = vs := by unfold fillVals; rw [if_neg hn]
    rw [h1, h1]

theorem fillna_idem (t : Table) : fillna (fillna t) = fillna t := by
  cases t with
  | mk l =>
    show Table.mk ((l.map fun c => (c.1, fillVals c.2)).map fun c => (c.1, fillVals c.2)) =
      Table.mk (l.map fun c => (c.1, fillVals c.2))
    apply table_eq
    rw [List.map_map]
    apply List.map_congr_left
    intro c _
    simp [Function.comp, fillVals_idem]

theorem length_insSorted (q : ℚ) (l : List ℚ) : (insSorted q l).length = l.length + 1 := by
  induction l with
  | nil => rfl
  | cons x xs ih =>
    rw [insSorted]
    split
    · simp
    · simp [ih]

theorem length_sortQ (l : List ℚ) : (sortQ l).length = l.length := by
  induction l with
  | nil => rfl
  | cons x xs ih => simp [sortQ, List.foldr] at ih ⊢; rw [length_insSorted, ih]

theorem median_isSome {l : List ℚ} (h : l ≠ []) : ∃ m, median l = some m := by
  unfold median
  have hl : (sortQ l).length ≠ 0 := by
    rw [length_sortQ]
    simpa using fun hh => h (List.length_eq_zero.mp hh)
  rw [if_neg hl]
  split
  · exact ⟨_, rfl⟩
  · exact ⟨_, rfl⟩

theorem parseVal_range (v : Val) :
    (parseVal v).isNa = true ∨ ∃ d, parseVal v = Val.date d := by
  cases v with
  | str s =>
    rw [parseVal]
    cases parseDate s with
    | none => left; rfl
    | some d => right; exact ⟨d, rfl⟩
  | num q => left; rfl
  | date d => right; exact ⟨d, rfl⟩
  | na => left; rfl

theorem parseVal_fix {v : Val} (h : v.isNa = true ∨ ∃ d, v = Val.date d) :
    parseVal v = v := by
  rcases h with hna | ⟨d, hd⟩
  · cases v <;> simp_all [Val.isNa, parseVal]
  · rw [hd, parseVal]

/-! ### Inversion lemmas for the staged pipeline -/

theorem limpiar_datos_inv {t u : Table} (h : limpiar_datos t = .ok u) :
    ∃ tp, limpiar_pre t = .ok tp ∧ u = fillna tp := by
  cases hpre : limpiar_pre t with
  | ok tp =>
    simp only [limpiar_datos, hpre] at h
    exact ⟨tp, rfl, (Except.ok.inj h).symm⟩
  | error e =>
    simp only [limpiar_datos, hpre] at h
    exact Except.noConfusion h

theorem limpiar_pre_inv {t tp : Table} (h : limpiar_pre t = .ok tp) :
    ∃ t2, limpiar_fechas t = .ok t2 ∧ dropnaSubset columnas_clave t2 = .ok tp := by
  cases hf : limpiar_fechas t with
  | ok t2 =>
    simp only [limpiar_pre, hf] at h
    exact ⟨t2, rfl, h⟩
  | error e =>
    simp only [limpiar_pre, hf] at h
    exact Except.noConfusion h

theorem limpiar_fechas_inv {t t2 : Table} (h : limpiar_fechas t = .ok t2) :
    ∃ vr vc, getCol (limpiar_rename t) "fecha_registro" = some vr ∧
      getCol (setCol (limpiar_rename t) "fecha_registro" (vr.map parseVal)) "fecha_contacto"
        = some vc ∧
      t2 = setCol (setCol (limpiar_rename t) "fecha_registro" (vr.map parseVal))
        "fecha_contacto" (vc.map parseVal) := by
  cases hr : getCol (limpiar_rename t) "fecha_registro" with
  | none =>
    simp only [limpiar_fechas, to_datetime, hr] at h
    exact Except.noConfusion h
  | some vr =>
    cases hc : getCol (setCol (limpiar_rename t) "fecha_registro" (vr.map parseVal))
        "fecha_contacto" with
    | none =>
      simp only [limpiar_fechas, to_datetime, hr, hc] at h
      exact Except.noConfusion h
    | some vc =>
      simp only [limpiar_fechas, to_datetime, hr, hc] at h
      exact ⟨vr, vc, rfl, hc, (Except.ok.inj h).symm⟩

theorem dropnaSubset_inv {keys : List String} {t tp : Table}
    (h : dropnaSubset keys t = .ok tp) :
    (keys.all fun k => (getCol t k).isSome) = true ∧ tp = filterRows t (keepRow t keys) := by
  unfold dropnaSubset at h
  split at h
  next hg => exact ⟨hg, (Except.ok.inj h).symm⟩
  next hg => exact Except.noConfusion h

theorem transformar_datos_inv {t u : Table} (h : transformar_datos t = .ok u) :
    ∃ cs rs ds,
      getCol t "fecha_contacto" = some cs ∧ getCol t "fecha_registro" = some rs ∧
      getCol (setCol t "dias_desde_registro" (List.zipWith subDias cs rs)) "duracion_llamada"
        = some ds ∧
      u = setCol (setCol t "dias_desde_registro" (List.zipWith subDias cs rs))
        "categoria_duracion" (ds.map categoriaOf) := by
  cases hc : getCol t "fecha_contacto" with
  | none =>
    simp only [transformar_datos, hc] at h
    exact Except.noConfusion h
  | some cs =>
    cases hr : getCol t "fecha_registro" with
    | none =>
      simp only [transformar_datos, hc, hr] at h
      exact Except.noConfusion h
    | some rs =>
      cases hd : getCol (setCol t "dias_desde_registro" (List.zipWith subDias cs rs))
          "duracion_llamada" with
      | none =>
        simp only [transformar_datos, hc, hr, hd] at h
        exact Except.noConfusion h
      | some ds =>
        simp only [transformar_datos, hc, hr, hd] at h
        exact ⟨cs, rs, ds, rfl, rfl, hd, (Except.ok.inj h).symm⟩

theorem dropna_keys_not_na {keys : List String} {t tp : Table}
    (h : dropnaSubset keys t = .ok tp) :
    ∀ k ∈ keys, ∀ vs, getCol tp k = some vs → ∀ v ∈ vs, v.isNa = false := by
  obtain ⟨hg, htp⟩ := dropnaSubset_inv h
  intro k hk vs hvs v hv
  rw [htp, getCol_filterRows] at hvs
  cases hsrc : getCol t k with
  | none => rw [hsrc] at hvs; exact Option.noConfusion hvs
  | some vs0 =>
    rw [hsrc, Option.map_some'] at hvs
    rw [← Option.some.inj hvs] at hv
    rcases mem_filterIdx hv with ⟨j, hpj, hj⟩
    rw [Nat.zero_add] at hpj
    rw [keepRow, List.all_eq_true] at hpj
    have hone := hpj k hk
    simp only [hsrc] at hone
    rw [get_of_get?_eq vs0 j v Val.na hj] at hone
    simpa using hone

theorem limpiar_pre_fechas_range {t tp : Table} (h : limpiar_pre t = .ok tp) :
    ∀ c ∈ ["fecha_registro", "fecha_contacto"], ∀ vs, getCol tp c = some vs →
      ∀ v ∈ vs, v.isNa = true ∨ ∃ d, v = Val.date d := by
  obtain ⟨t2, hf, hdn⟩ := limpiar_pre_inv h
  obtain ⟨vr, vc, hvr, hvc, ht2⟩ := limpiar_fechas_inv hf
  intro c hc vs hvs v hv
  obtain ⟨hg, htp⟩ := dropnaSubset_inv hdn
  rw [htp, getCol_filterRows] at hvs
  have hbase : ∃ ws : List Val, getCol t2 c = some (ws.map parseVal) := by
    have hc2 : c = "fecha_registro" ∨ c = "fecha_contacto" := by simpa using hc
    rcases hc2 with hceq | hceq
    · rw [hceq, ht2,
        getCol_setCol_ne _ _ _ _ (by decide : ("fecha_registro" : String) ≠ "fecha_contacto"),
        getCol_setCol_self]
      exact ⟨vr, rfl⟩
    · rw [hceq, ht2, getCol_setCol_self]
      exact ⟨vc, rfl⟩
  obtain ⟨ws, hws⟩ := hbase
  rw [hws, Option.map_some'] at hvs
  rw [← Option.some.inj hvs] at hv
  rcases mem_filterIdx hv with ⟨j, _, hj⟩
  rcases List.mem_map.mp (List.get?_mem hj) with ⟨w, _, hw⟩
  rw [← hw]
  exact parseVal_range w

/-! ### Bucketing laws of `categoriaOf` -/

theorem categoriaOf_corta_iff (q : ℚ) :
    categoriaOf (Val.num q) = Val.str "Corta" ↔ 0 ≤ q ∧ q < 100 := by
  simp only [categoriaOf]
  split_ifs with h0 h1 h2
  · simp [h0, h1]
  · constructor
    · intro hh; exact absurd hh (by decide)
    · rintro ⟨-, hlt⟩; exact absurd hlt h1
  · constructor
    · intro hh; exact absurd hh (by decide)
    · rintro ⟨-, hlt⟩; exact absurd hlt h1
  · constructor
    · intro hh; exact absurd hh (by decide)
    · rintro ⟨hge, -⟩; exact absurd hge h0

theorem categoriaOf_media_iff (q : ℚ) :
    categoriaOf (Val.num q) = Val.str "Media" ↔ 100 ≤ q ∧ q < 300 := by
  simp only [categoriaOf]
  split_ifs with h0 h1 h2
  · constructor
    · intro hh; exact absurd hh (by decide)
    · rintro ⟨hge, -⟩; exact absurd hge (not_le.mpr h1)
  · constructor
    · intro _; exact ⟨not_lt.mp h1, h2⟩
    · intro _; rfl
  · constructor
    · intro hh; exact absurd hh (by decide)
    · rintro ⟨-, hlt⟩; exact absurd hlt h2
  · constructor
    · intro hh; exact absurd hh (by decide)
    · rintro ⟨hge, -⟩; exact absurd (show (0 : ℚ) ≤ q by linarith) h0

theorem categoriaOf_larga_iff (q : ℚ) :
    categoriaOf (Val.num q) = Val.str "Larga" ↔ 300 ≤ q := by
  simp only [categoriaOf]
  split_ifs with h0 h1 h2
  · constructor
    · intro hh; exact absurd hh (by decide)
    · intro hge; exact absurd hge (not_le.mpr (by linarith))
  · constructor
    · intro hh; exact absurd hh (by decide)
    · intro hge; exact absurd hge (not_le.mpr h2)
  · constructor
    · intro _; exact not_lt.mp h2
    · intro _; rfl
  · constructor
    · intro hh; exact absurd hh (by decide)
    · intro hge; exact absurd (show (0 : ℚ) ≤ q by linarith) h0

deriving instance DecidableEq for Except

/-! ### Concrete tables used by the scenario claims and the witnesses -/

def tEscenario : Table :=
  ⟨[("job", [Val.str "admin."]), ("marital", [Val.str "married"]),
    ("education", [Val.str "university.degree"]), ("duration", [Val.num 250]),
    ("dt_customer", [Val.str "2020-01-01"]), ("contact_date", [Val.str "2020-03-01"]),
    ("y", [Val.num 1])]⟩

def escenario_final : Except String Table :=
  match limpiar_datos tEscenario with
  | .ok u => transformar_datos u
  | .error e => .error e

def escenarioCol (c : String) : Option (List Val) :=
  match escenario_final with
  | .ok u => getCol u c
  | .error _ => none

def tSinFechas : Table :=
  ⟨[("job", [Val.str "tecnico"]), ("marital", [Val.str "soltero"]),
    ("education", [Val.str "primaria"]), ("contact_date", [Val.str "2020-05-05"])]⟩

def tMayuscula : Table :=
  ⟨[("Day", [Val.str "lunes"]), ("job", [Val.str "obrero"]), ("marital", [Val.str "casado"]),
    ("education", [Val.str "basica"]), ("dt_customer", [Val.str "2020-01-01"]),
    ("contact_date", [Val.str "2020-01-02"])]⟩

def tMayuscula1 : Table :=
  ⟨[("day", [Val.str "lunes"]), ("ocupacion", [Val.str "obrero"]),
    ("estado_civil", [Val.str "casado"]), ("educacion", [Val.str "basica"]),
    ("fecha_registro", [Val.date 737730]), ("fecha_contacto", [Val.date 737731])]⟩

def tMayuscula2 : Table :=
  ⟨[("ocupacion", [Val.str "obrero"]), ("estado_civil", [Val.str "casado"]),
    ("educacion", [Val.str "basica"]), ("fecha_registro", [Val.date 737730]),
    ("fecha_contacto", [Val.date 737731])]⟩

def tFaltaFecha : Table :=
  ⟨[("fecha_registro", [Val.date 0]), ("fecha_contacto", [Val.na]),
    ("duracion_llamada", [Val.num 50])]⟩

def tFaltaFecha1 : Table :=
  ⟨[("fecha_registro", [Val.date 0]), ("fecha_contacto", [Val.na]),
    ("duracion_llamada", [Val.num 50]), ("dias_desde_registro", [Val.na]),
    ("categoria_duracion", [Val.str "Corta"])]⟩

def tFaltaFecha2 : Table :=
  ⟨[("fecha_registro", []), ("fecha_contacto", []), ("duracion_llamada", []),
    ("dias_desde_registro", []), ("categoria_duracion", [])]⟩

def tW1 : Table :=
  ⟨[("job", [Val.str "a", Val.str "b"]), ("marital", [Val.str "c", Val.str "d"]),
    ("education", [Val.str "e", Val.str "f"]), ("duration", [Val.num 10, Val.na]),
    ("dt_customer", [Val.str "2020-01-01", Val.str "2020-01-01"]),
    ("contact_date", [Val.str "2020-01-02", Val.str "2020-01-02"])]⟩

def tW1p : Table :=
  ⟨[("ocupacion", [Val.str "a", Val.str "b"]), ("estado_civil", [Val.str "c", Val.str "d"]),
    ("educacion", [Val.str "e", Val.str "f"]), ("duracion_llamada", [Val.num 10, Val.na]),
    ("fecha_registro", [Val.date 737730, Val.date 737730]),
    ("fecha_contacto", [Val.date 737731, Val.date 737731])]⟩

def tW1u : Table :=
  ⟨[("ocupacion", [Val.str "a", Val.str "b"]), ("estado_civil", [Val.str "c", Val.str "d"]),
    ("educacion", [Val.str "e", Val.str "f"]), ("duracion_llamada", [Val.num 10, Val.num 10]),
    ("fecha_registro", [Val.date 737730, Val.date 737730]),
    ("fecha_contacto", [Val.date 737731, Val.date 737731])]⟩

def tW2 : Table :=
  ⟨[("fecha_registro", [Val.date 0, Val.date 0, Val.date 0, Val.date 0]),
    ("fecha_contacto", [Val.date 1, Val.na, Val.date 5, Val.date 0]),
    ("duracion_llamada", [Val.num 50, Val.num 150, Val.num 350, Val.na])]⟩

def tW2u : Table :=
  ⟨[("fecha_registro", [Val.date 0, Val.date 0, Val.date 0, Val.date 0]),
    ("fecha_contacto", [Val.date 1, Val.na, Val.date 5, Val.date 0]),
    ("duracion_llamada", [Val.num 50, Val.num 150, Val.num 350, Val.na]),
    ("dias_desde_registro", [Val.num 1, Val.na, Val.num 5, Val.num 0]),
    ("categoria_duracion", [Val.str "Corta", Val.str "Media", Val.str "Larga", Val.na])]⟩

def tW3 : Table :=
  ⟨[("fecha_registro", [Val.date 10, Val.date 0]), ("fecha_contacto", [Val.date 3, Val.na]),
    ("duracion_llamada", [Val.num 1, Val.num 2])]⟩

def tW3u : Table :=
  ⟨[("fecha_registro", [Val.date 10, Val.date 0]), ("fecha_contacto", [Val.date 3, Val.na]),
    ("duracion_llamada", [Val.num 1, Val.num 2]),
    ("dias_desde_registro", [Val.num (-7), Val.na]),
    ("categoria_duracion", [Val.str "Corta", Val.str "Corta"])]⟩

def tW9 : Table :=
  ⟨[("fecha_registro", [Val.date 0]), ("fecha_contacto", [Val.date 0]),
    ("duracion_llamada", [Val.num (-5)])]⟩

def tW9u : Table :=
  ⟨[("fecha_registro", [Val.date 0]), ("fecha_contacto", [Val.date 0]),
    ("duracion_llamada", [Val.num (-5)]), ("dias_desde_registro", [Val.num 0]),
    ("categoria_duracion", [Val.na])]⟩

def tW10 : Table :=
  ⟨[("job", [Val.str "a"]), ("marital", [Val.str "b"]), ("education", [Val.str "c"]),
    ("dt_customer", [Val.str "fecha-mala"]), ("contact_date", [Val.str "2020-01-01"])]⟩

def tW10p : Table :=
  ⟨[("ocupacion", [Val.str "a"]), ("estado_civil", [Val.str "b"]),
    ("educacion", [Val.str "c"]), ("fecha_registro", [Val.na]),
    ("fecha_contacto", [Val.date 737730])]⟩

/-! ### The claims -/

/-- C1: after the Cleaner succeeds on an input, its output has no
missing value in `ocupacion`, `estado_civil` or `educacion`, and every
numeric column of the post-drop table with at least one non-missing
value comes out with each missing cell replaced by the column median
(computed over the non-missing values after the key-column row drop),
hence free of missing values. -/
theorem limpiar_datos_elimina_nulos (t tp u : Table)
    (hpre : limpiar_pre t = Except.ok tp) (h : limpiar_datos t = Except.ok u) :
    (∀ k ∈ columnas_clave, ∀ vs, getCol u k = some vs → ∀ v ∈ vs, v.isNa = false) ∧
    (∀ n vs, getCol tp n = some vs → isNumericCol vs = true → colNums vs ≠ [] →
      getCol u n = some (vs.map fun v =>
        if v.isNa then (median (colNums vs)).elim Val.na Val.num else v) ∧
      ∀ w ∈ vs.map (fun v =>
        if v.isNa then (median (colNums vs)).elim Val.na Val.num else v), w.isNa = false) := by
  have hu : u = fillna tp := by
    obtain ⟨tp2, hp2, hu2⟩ := limpiar_datos_inv h
    rw [hpre] at hp2
    rw [hu2, Except.ok.inj hp2]
  obtain ⟨t2, hf, hdn⟩ := limpiar_pre_inv hpre
  constructor
  · intro k hk vs hvs v hv
    rw [hu, getCol_fillna] at hvs
    cases hsrc : getCol tp k with
    | none => rw [hsrc] at hvs; exact Option.noConfusion hvs
    | some vs0 =>
      rw [hsrc, Option.map_some'] at hvs
      have h0 : ∀ w ∈ vs0, w.isNa = false := dropna_keys_not_na hdn k hk vs0 hsrc
      rw [← Option.some.inj hvs, fillVals_of_no_na h0] at hv
      exact h0 v hv
  · intro n vs hvs hnum hnn
    obtain ⟨m, hm⟩ := median_isSome hnn
    have hfv : fillVals vs = vs.map fun v => if v.isNa then Val.num m else v := by
      simp [fillVals, hnum, hm]
    constructor
    · rw [hu, getCol_fillna, hvs, Option.map_some', hfv, hm]
      simp [Option.elim]
    · intro w hw
      rw [hm] at hw
      simp only [Option.elim] at hw
      exact map_fill_no_na_out w hw

/-- Witness for C1: a two-row table whose missing duration is filled
with the column median 10. -/
theorem limpiar_datos_elimina_nulos_witness :
    getCol tW1u "duracion_llamada" = some [Val.num 10, Val.num 10] := by
  have h := (limpiar_datos_elimina_nulos tW1 tW1p tW1u (by decide) (by decide)).2
    "duracion_llamada" [Val.num 10, Val.na] (by decide) (by decide) (by decide)
  exact h.1.trans (by decide)

/-- C2: the Transformer writes `categoria_duracion` as the cellwise
bucketing of `duracion_llamada`, and the buckets obey the half-open,
left-inclusive law: Corta iff 0 ≤ d < 100, Media iff 100 ≤ d < 300,
Larga iff d ≥ 300, with a missing duration giving a missing category. -/
theorem transformar_datos_buckets (t u : Table) (vs : List Val)
    (h : transformar_datos t = Except.ok u)
    (hvs : getCol t "duracion_llamada" = some vs) :
    getCol u "categoria_duracion" = some (vs.map categoriaOf) ∧
    (∀ q : ℚ, (categoriaOf (Val.num q) = Val.str "Corta" ↔ 0 ≤ q ∧ q < 100) ∧
      (categoriaOf (Val.num q) = Val.str "Media" ↔ 100 ≤ q ∧ q < 300) ∧
      (categoriaOf (Val.num q) = Val.str "Larga" ↔ 300 ≤ q)) ∧
    categoriaOf Val.na = Val.na := by
  obtain ⟨cs, rs, ds, hc, hr, hd, hu⟩ := transformar_datos_inv h
  have hds : ds = vs := by
    rw [getCol_setCol_ne _ _ _ _
      (by decide : ("duracion_llamada" : String) ≠ "dias_desde_registro"), hvs] at hd
    exact (Option.some.inj hd).symm
  refine ⟨?_, ?_, rfl⟩
  · rw [hu, getCol_setCol_self, hds]
  · intro q
    exact ⟨categoriaOf_corta_iff q, categoriaOf_media_iff q, categoriaOf_larga_iff q⟩

/-- Witness for C2: the four durations 50, 150, 350 and missing land in
Corta, Media, Larga and missing. -/
theorem transformar_datos_buckets_witness :
    getCol tW2u "categoria_duracion" =
      some [Val.str "Corta", Val.str "Media", Val.str "Larga", Val.na] := by
  have h := transformar_datos_buckets tW2 tW2u
    [Val.num 50, Val.num 150, Val.num 350, Val.na] (by decide) (by decide)
  exact h.1.trans (by decide)

/-- C3: the Transformer writes `dias_desde_registro` as the rowwise
whole-day difference of `fecha_contacto` minus `fecha_registro`, the
difference of two dates being exact (negative allowed) and any missing
operand giving a missing result. -/
theorem transformar_datos_dias (t u : Table) (cs rs : List Val)
    (h : transformar_datos t = Except.ok u)
    (hc : getCol t "fecha_contacto" = some cs)
    (hr : getCol t "fecha_registro" = some rs) :
    getCol u "dias_desde_registro" = some (List.zipWith subDias cs rs) ∧
    (∀ a b : ℤ, subDias (Val.date a) (Val.date b) = Val.num ((a - b : ℤ) : ℚ)) ∧
    ∀ v : Val, subDias Val.na v = Val.na ∧ subDias v Val.na = Val.na := by
  obtain ⟨cs2, rs2, ds, hc2, hr2, hd, hu⟩ := transformar_datos_inv h
  rw [hc] at hc2
  rw [hr] at hr2
  refine ⟨?_, fun a b => rfl, fun v => ⟨rfl, by cases v <;> rfl⟩⟩
  rw [hu, getCol_setCol_ne _ _ _ _
    (by decide : ("dias_desde_registro" : String) ≠ "categoria_duracion"),
    getCol_setCol_self, ← Option.some.inj hc2, ← Option.some.inj hr2]

/-- Witness for C3: contact on day 3 and registration on day 10 give
the negative difference −7, and a missing contact date gives missing. -/
theorem transformar_datos_dias_witness :
    getCol tW3u "dias_desde_registro" = some [Val.num (-7), Val.na] := by
  have h := transformar_datos_dias tW3 tW3u [Val.date 3, Val.na]
    [Val.date 10, Val.date 0] (by decide) (by decide) (by decide)
  exact h.1.trans (by decide)

/-- C4 counterexample: the claim says the Cleaner raises no exception
when `fecha_registro` is absent, but on a table with no `dt_customer`
or `fecha_registro` column the date-parsing step raises a KeyError. -/
theorem limpiar_datos_keyerror_contra :
    limpiar_datos tSinFechas = Except.error "KeyError: fecha_registro" := by decide

/-- C4 amended: the drop, name-normalization, rename and categorical
casts tolerate absent columns, but the Cleaner raises a KeyError when
the renamed table lacks `fecha_registro`, and likewise when it has
`fecha_registro` but lacks `fecha_contacto`. -/
theorem limpiar_datos_keyerror_cols (t : Table) :
    (getCol (limpiar_rename t) "fecha_registro" = none →
      limpiar_datos t = Except.error "KeyError: fecha_registro") ∧
    (∀ vr : List Val, getCol (limpiar_rename t) "fecha_registro" = some vr →
      getCol (setCol (limpiar_rename t) "fecha_registro" (vr.map parseVal))
        "fecha_contacto" = none →
      limpiar_datos t = Except.error "KeyError: fecha_contacto") := by
  constructor
  · intro h0
    simp only [limpiar_datos, limpiar_pre, limpiar_fechas, to_datetime, h0]
    rfl
  · intro vr h1 h2
    simp only [limpiar_datos, limpiar_pre, limpiar_fechas, to_datetime, h1, h2]
    rfl

/-- Witness for C4 amended: the empty table has no `fecha_registro`
after renaming, and cleaning it raises the KeyError. -/
theorem limpiar_datos_keyerror_cols_witness :
    limpiar_datos (Table.mk []) = Except.error "KeyError: fecha_registro" :=
  (limpiar_datos_keyerror_cols (Table.mk [])).1 (by decide)

/-- C5: on a missing file the Loader returns an absent result after the
failure diagnostic and the driver runs no further stage, while any
other read error propagates unhandled through Loader and driver. -/
theorem cargar_datos_fichero_inexistente :
    cargar_datos ReadOutcome.fileNotFound =
      Except.ok (none, "Error: Archivo no encontrado.") ∧
    etapas_ejecutadas ReadOutcome.fileNotFound = Except.ok ["cargar_datos"] ∧
    (∀ e, cargar_datos (ReadOutcome.otherError e) = Except.error e) ∧
    (∀ e, etapas_ejecutadas (ReadOutcome.otherError e) = Except.error e) :=
  ⟨rfl, rfl, fun _ => rfl, fun _ => rfl⟩

/-- Witness for C5: a concrete non-file-not-found error propagates. -/
theorem cargar_datos_fichero_inexistente_witness :
    etapas_ejecutadas (ReadOutcome.otherError "disco lleno") = Except.error "disco lleno" :=
  cargar_datos_fichero_inexistente.2.2.2 "disco lleno"

/-- C6: the scenario row (job admin., married, university.degree,
duration 250, registered 2020-01-01, contacted 2020-03-01, y = 1) comes
out of Cleaner plus Transformer with the stated seven field values, in
particular categoria Media and a 60-day difference. -/
theorem pipeline_escenario_admin :
    escenarioCol "ocupacion" = some [Val.str "admin."] ∧
    escenarioCol "estado_civil" = some [Val.str "married"] ∧
    escenarioCol "educacion" = some [Val.str "university.degree"] ∧
    escenarioCol "duracion_llamada" = some [Val.num 250] ∧
    escenarioCol "categoria_duracion" = some [Val.str "Media"] ∧
    escenarioCol "dias_desde_registro" = some [Val.num 60] ∧
    escenarioCol "suscribio" = some [Val.num 1] := by decide

/-- C7 counterexample: the Cleaner is not idempotent.  A column named
Day is not dropped on the first pass (the drop list is matched before
name normalization), is renamed to day, and is then dropped by the
second pass, so cleaning twice differs from cleaning once. -/
theorem limpiar_datos_no_idempotente :
    limpiar_datos tMayuscula = Except.ok tMayuscula1 ∧
    limpiar_datos tMayuscula1 = Except.ok tMayuscula2 ∧ tMayuscula2 ≠ tMayuscula1 := by decide

/-- C8: the two Transformer variants disagree: on a cleaned table with
a missing contact date the primary variant keeps the row with a missing
day count while the draft variant drops it first. -/
theorem transformar_variantes_difieren :
    ∃ t u1 u2 : Table, (∃ vs, getCol t "fecha_contacto" = some vs ∧ Val.na ∈ vs) ∧
      transformar_datos t = Except.ok u1 ∧
      transformar_datos_borrador t = Except.ok u2 ∧ u1 ≠ u2 :=
  ⟨tFaltaFecha, tFaltaFecha1, tFaltaFecha2, ⟨[Val.na], by decide, by decide⟩,
    by decide, by decide, by decide⟩

/-- C9: a strictly negative duration lies below the lowest bin edge 0,
so the Transformer maps it to a missing category rather than to Corta
or to an error. -/
theorem transformar_duracion_negativa (t u : Table) (vs : List Val) (i : ℕ) (q : ℚ)
    (h : transformar_datos t = Except.ok u)
    (hvs : getCol t "duracion_llamada" = some vs)
    (hq : vs.get? i = some (Val.num q)) (hneg : q < 0) :
    getCol u "categoria_duracion" = some (vs.map categoriaOf) ∧
    (vs.map categoriaOf).get? i = some Val.na := by
  obtain ⟨cs, rs, ds, hc, hr, hd, hu⟩ := transformar_datos_inv h
  have hds : ds = vs := by
    rw [getCol_setCol_ne _ _ _ _
      (by decide : ("duracion_llamada" : String) ≠ "dias_desde_registro"), hvs] at hd
    exact (Option.some.inj hd).symm
  constructor
  · rw [hu, getCol_setCol_self, hds]
  · rw [List.get?_map, hq, Option.map_some']
    have hna : categoriaOf (Val.num q) = Val.na := by
      simp only [categoriaOf]
      rw [if_neg (not_le.mpr hneg)]
    rw [hna]

/-- Witness for C9: duration −5 gets a missing category. -/
theorem transformar_duracion_negativa_witness :
    getCol tW9u "categoria_duracion" = some [Val.na] := by
  have h := transformar_duracion_negativa tW9 tW9u [Val.num (-5)] 0 (-5)
    (by decide) (by decide) (by decide) (by decide)
  exact h.1.trans (by decide)

/-- C10: the median fill of the Cleaner touches only numeric columns:
any non-numeric column of the post-drop table reaches the output
unchanged, the two date columns in particular keep their missing
entries, and such a missing date makes the Transformer day count
missing. -/
theorem fillna_preserva_no_numericas (t tp u : Table)
    (hpre : limpiar_pre t = Except.ok tp) (h : limpiar_datos t = Except.ok u) :
    (∀ n vs, getCol tp n = some vs → isNumericCol vs = false → getCol u n = some vs) ∧
    (∀ c ∈ ["fecha_registro", "fecha_contacto"], ∀ vs, getCol tp c = some vs →
      getCol u c = some vs) ∧
    ∀ v : Val, subDias Val.na v = Val.na ∧ subDias v Val.na = Val.na := by
  have hu : u = fillna tp := by
    obtain ⟨tp2, hp2, hu2⟩ := limpiar_datos_inv h
    rw [hpre] at hp2
    rw [hu2, Except.ok.inj hp2]
  refine ⟨?_, ?_, fun v => ⟨rfl, by cases v <;> rfl⟩⟩
  · intro n vs hvs hnum
    rw [hu, getCol_fillna, hvs, Option.map_some']
    have hfv : fillVals vs = vs := by simp [fillVals, hnum]
    rw [hfv]
  · intro c hc vs hvs
    have hrange := limpiar_pre_fechas_range hpre c hc vs hvs
    rw [hu, getCol_fillna, hvs, Option.map_some', fillVals_of_dates hrange]

/-- Witness for C10: an unparseable registration date survives the
Cleaner as a missing date. -/
theorem fillna_preserva_no_numericas_witness :
    getCol tW10p "fecha_registro" = some [Val.na] :=
  (fillna_preserva_no_numericas tW10 tW10p tW10p (by decide) (by decide)).2.1
    "fecha_registro" (by decide) [Val.na] (by decide)

/-! ### Machinery for the amended idempotence claim -/

theorem getD_mem_of_lt {α : Type} (l : List α) (n : ℕ) (d : α) (h : n < l.length) :
    l.getD n d ∈ l := by
  rw [List.getD_eq_getElem l d h]
  exact List.getElem_mem h

theorem getVals_mem {l : List (String × List Val)} {n : String} {vs : List Val}
    (h : getVals l n = some vs) : (n, vs) ∈ l := by
  induction l with
  | nil => simp [getVals] at h
  | cons p ps ih =>
    by_cases hp : p.1 = n
    · simp only [getVals, if_pos hp, Option.some.injEq] at h
      obtain ⟨k, v⟩ := p
      simp_all
    · simp only [getVals, if_neg hp] at h
      exact List.mem_cons_of_mem _ (ih h)

theorem names_map_snd (f : List Val → List Val) (l : List (String × List Val)) :
    (l.map fun c => (c.1, f c.2)).map Prod.fst = l.map Prod.fst := by
  induction l with
  | nil => rfl
  | cons p ps ih => simp [ih]

theorem names_setVals {l : List (String × List Val)} {c : String} {v : List Val}
    (h : (getVals l c).isSome = true) :
    (setVals l c v).map Prod.fst = l.map Prod.fst := by
  induction l with
  | nil => simp [getVals] at h
  | cons p ps ih =>
    by_cases hp : p.1 = c
    · simp [setVals, hp]
    · simp only [getVals, if_neg hp] at h
      simp [setVals, hp, ih h]

theorem colNames_fillna (t : Table) : colNames (fillna t) = colNames t :=
  names_map_snd fillVals t.cols

theorem colNames_filterRows (t : Table) (p : ℕ → Bool) :
    colNames (filterRows t p) = colNames t :=
  names_map_snd (filterIdx p 0) t.cols

theorem colNames_setCol {t : Table} {c : String} {v : List Val}
    (h : (getCol t c).isSome = true) : colNames (setCol t c v) = colNames t :=
  names_setVals h

theorem colNames_limpiar_rename (t : Table) :
    colNames (limpiar_rename t) =
      (colNames (dropColumns columnas_a_eliminar t)).map fun s => renameFn (snakeName s) := by
  simp [limpiar_rename, renombrar, snakeCols, colNames, List.map_map, Function.comp]

theorem map_pairs_fst_eq_self {l : List (String × List Val)} {f : String → String}
    (h : ∀ p ∈ l, f p.1 = p.1) : (l.map fun p => (f p.1, p.2)) = l := by
  induction l with
  | nil => rfl
  | cons p ps ih =>
    rw [List.map_cons, h p (by simp), Prod.mk.eta, ih fun q hq => h q (by simp [hq])]

theorem map_pairs_snd_eq_self {l : List (String × List Val)} {f : List Val → List Val}
    (h : ∀ p ∈ l, f p.2 = p.2) : (l.map fun p => (p.1, f p.2)) = l := by
  induction l with
  | nil => rfl
  | cons p ps ih =>
    rw [List.map_cons, h p (by simp), Prod.mk.eta, ih fun q hq => h q (by simp [hq])]

theorem lcAlphabet_no_upper : ∀ x ∈ lcAlphabet, ¬(65 ≤ x.toNat ∧ x.toNat ≤ 90) := by decide

theorem lowerChar_mem_of_upper {c : Char} (h : 65 ≤ c.toNat ∧ c.toNat ≤ 90) :
    lowerChar c ∈ lcAlphabet := by
  rw [lowerChar, if_pos h]
  apply getD_mem_of_lt
  have hlen : lcAlphabet.length = 26 := by decide
  omega

theorem lowerChar_idem (c : Char) : lowerChar (lowerChar c) = lowerChar c := by
  by_cases h : 65 ≤ c.toNat ∧ c.toNat ≤ 90
  · have hmem := lowerChar_mem_of_upper h
    have hnot := lcAlphabet_no_upper _ hmem
    conv_lhs => rw [lowerChar]
    rw [if_neg hnot]
  · have h1 : lowerChar c = c := by rw [lowerChar, if_neg h]
    rw [h1, h1]

theorem snChar_idem (c : Char) : snChar (snChar c) = snChar c := by
  by_cases hs : c = ' '
  · rw [hs]
    decide
  · have hsc : snChar c = lowerChar c := by rw [snChar, if_neg hs]
    rw [hsc]
    by_cases h : 65 ≤ c.toNat ∧ c.toNat ≤ 90
    · have hmem := lowerChar_mem_of_upper h
      have hns : ¬ lowerChar c = ' ' := by
        intro hh
        exact absurd (hh ▸ hmem) (by decide)
      rw [snChar, if_neg hns]
      exact lowerChar_idem c
    · have h1 : lowerChar c = c := by rw [lowerChar, if_neg h]
      rw [h1, hsc, h1]

theorem snakeName_idem (s : String) : snakeName (snakeName s) = snakeName s := by
  show String.mk ((s.data.map snChar).map snChar) = String.mk (s.data.map snChar)
  refine congrArg String.mk ?_
  rw [List.map_map]
  apply List.map_congr_left
  intro c _
  simp [Function.comp, snChar_idem]

theorem lookup_mem_values (a : String) (l : List (String × String)) (b : String)
    (h : List.lookup a l = some b) : b ∈ l.map Prod.snd := by
  induction l with
  | nil => simp [List.lookup] at h
  | cons p ps ih =>
    obtain ⟨k, v⟩ := p
    cases hk : (a == k) with
    | true =>
      simp only [List.lookup, hk, Option.some.injEq] at h
      simp [h]
    | false =>
      simp only [List.lookup, hk] at h
      simp [ih h]

theorem targets_fixed : ∀ b ∈ columnas_traducidas.map Prod.snd,
    List.lookup b columnas_traducidas = none ∧ snakeName b = b := by decide

theorem renameFn_snake_fixed (s : String) :
    renameFn (renameFn (snakeName s)) = renameFn (snakeName s) ∧
    snakeName (renameFn (snakeName s)) = renameFn (snakeName s) := by
  cases hl : List.lookup (snakeName s) columnas_traducidas with
  | none =>
    have hx : renameFn (snakeName s) = snakeName s := by
      rw [renameFn, hl]
      rfl
    constructor
    · rw [hx]
      exact hx
    · rw [hx]
      exact snakeName_idem s
  | some tg =>
    have hx : renameFn (snakeName s) = tg := by
      rw [renameFn, hl]
      rfl
    have hprops := targets_fixed tg (lookup_mem_values _ _ _ hl)
    constructor
    · rw [hx, renameFn, hprops.1]
      rfl
    · rw [hx]
      exact hprops.2

theorem map_parseVal_fix {ws : List Val}
    (h : ∀ w ∈ ws, w.isNa = true ∨ ∃ d, w = Val.date d) : ws.map parseVal = ws := by
  induction ws with
  | nil => rfl
  | cons w l ih =>
    rw [List.map_cons, parseVal_fix (h w (by simp)), ih fun x hx => h x (by simp [hx])]

theorem filterRows_eq_self {t : Table} {p : ℕ → Bool}
    (h : ∀ c ∈ t.cols, filterIdx p 0 c.2 = c.2) : filterRows t p = t := by
  cases t with
  | mk l => exact table_eq (map_pairs_snd_eq_self h)

theorem wfT_lengths {t : Table} (h : wfT t = true) :
    ∀ p ∈ t.cols, ∀ q ∈ t.cols, p.2.length = q.2.length := by
  cases t with
  | mk l =>
    cases l with
    | nil =>
      intro p hp
      simp at hp
    | cons c cs =>
      simp only [wfT, List.all_eq_true] at h
      intro p hp q hq
      have hp2 : p.2.length = c.2.length := by
        rcases List.mem_cons.mp hp with hh | hh
        · rw [hh]
        · simpa using h p hh
      have hq2 : q.2.length = c.2.length := by
        rcases List.mem_cons.mp hq with hh | hh
        · rw [hh]
        · simpa using h q hh
      rw [hp2, hq2]

def tW7 : Table :=
  ⟨[("job", [Val.str "g"]), ("marital", [Val.str "h"]), ("education", [Val.str "i"]),
    ("dt_customer", [Val.str "2020-01-01"]), ("contact_date", [Val.str "2020-01-02"])]⟩

def tW7u : Table :=
  ⟨[("ocupacion", [Val.str "g"]), ("estado_civil", [Val.str "h"]),
    ("educacion", [Val.str "i"]), ("fecha_registro", [Val.date 737730]),
    ("fecha_contacto", [Val.date 737731])]⟩

/-- C7 amended: the Cleaner is idempotent on every well-formed output
that retains no column of the fixed drop list; the counterexample (a
column whose normalized name lands in the drop list only after the
first pass) is exactly what this extra condition excludes.  On such a
table a second run drops nothing, renames nothing, reparses the date
columns to themselves, drops no row and refills nothing. -/
theorem limpiar_datos_idempotente_sin_drop (t u : Table)
    (h : limpiar_datos t = Except.ok u) (hwf : wfT u = true)
    (hnd : (u.cols.all fun p => !(columnas_a_eliminar.contains p.1)) = true) :
    limpiar_datos u = Except.ok u := by
  obtain ⟨tp, hpre, hu⟩ := limpiar_datos_inv h
  obtain ⟨t2, hf, hdn⟩ := limpiar_pre_inv hpre
  obtain ⟨vr, vc, hvr, hvc, ht2⟩ := limpiar_fechas_inv hf
  obtain ⟨hg, htp⟩ := dropnaSubset_inv hdn
  have hnames : colNames u = (colNames (dropColumns columnas_a_eliminar t)).map
      fun s => renameFn (snakeName s) := by
    rw [hu, colNames_fillna, htp, colNames_filterRows, ht2,
      colNames_setCol (by rw [hvc]; rfl), colNames_setCol (by rw [hvr]; rfl),
      colNames_limpiar_rename]
  have hfix : ∀ n ∈ colNames u, snakeName n = n ∧ renameFn n = n := by
    intro n hn
    rw [hnames] at hn
    rcases List.mem_map.mp hn with ⟨s, _, hs⟩
    rw [← hs]
    exact ⟨(renameFn_snake_fixed s).2, (renameFn_snake_fixed s).1⟩
  have hdropu : dropColumns columnas_a_eliminar u = u := by
    cases u with
    | mk lu =>
      apply table_eq
      exact List.filter_eq_self.mpr (List.all_eq_true.mp hnd)
  have hsnake : snakeCols u = u := by
    cases hcu : u with
    | mk lu =>
      apply table_eq
      apply map_pairs_fst_eq_self
      intro p hp
      exact (hfix p.1 (by rw [hcu, colNames]; exact List.mem_map_of_mem Prod.fst hp)).1
  have hren : renombrar u = u := by
    cases hcu : u with
    | mk lu =>
      apply table_eq
      apply map_pairs_fst_eq_self
      intro p hp
      exact (hfix p.1 (by rw [hcu, colNames]; exact List.mem_map_of_mem Prod.fst hp)).2
  have hlr : limpiar_rename u = u := by
    rw [limpiar_rename, hdropu, hsnake, hren]
  have hpres : ∀ c ∈ ["fecha_registro", "fecha_contacto"], ∃ ws, getCol tp c = some ws := by
    intro c hc
    have hc2 : c = "fecha_registro" ∨ c = "fecha_contacto" := by simpa using hc
    rcases hc2 with hceq | hceq
    · rw [hceq, htp, getCol_filterRows, ht2,
        getCol_setCol_ne _ _ _ _ (by decide : ("fecha_registro" : String) ≠ "fecha_contacto"),
        getCol_setCol_self, Option.map_some']
      exact ⟨_, rfl⟩
    · rw [hceq, htp, getCol_filterRows, ht2, getCol_setCol_self, Option.map_some']
      exact ⟨_, rfl⟩
  have hufix : ∀ c ∈ ["fecha_registro", "fecha_contacto"],
      ∃ ws, getCol u c = some ws ∧ ws.map parseVal = ws := by
    intro c hc
    obtain ⟨ws, hws⟩ := hpres c hc
    have hrange := limpiar_pre_fechas_range hpre c hc ws hws
    refine ⟨ws, ?_, map_parseVal_fix hrange⟩
    rw [hu, getCol_fillna, hws, Option.map_some', fillVals_of_dates hrange]
  obtain ⟨wr, hgwr, hwr⟩ := hufix "fecha_registro" (by decide)
  obtain ⟨wc, hgwc, hwc⟩ := hufix "fecha_contacto" (by decide)
  have hd1 : to_datetime "fecha_registro" u = Except.ok u := by
    simp only [to_datetime, hgwr, hwr]
    rw [setCol_self u _ wr hgwr]
  have hd2 : to_datetime "fecha_contacto" u = Except.ok u := by
    simp only [to_datetime, hgwc, hwc]
    rw [setCol_self u _ wc hgwc]
  have hfeu : limpiar_fechas u = Except.ok u := by
    simp only [limpiar_fechas, hlr, hd1, hd2]
  have hkeyna : ∀ k ∈ columnas_clave, ∀ vs, getCol u k = some vs →
      ∀ v ∈ vs, v.isNa = false := by
    intro k hk vs hvs v hv
    rw [hu, getCol_fillna] at hvs
    cases hsrc : getCol tp k with
    | none => rw [hsrc] at hvs; exact Option.noConfusion hvs
    | some vs0 =>
      rw [hsrc, Option.map_some'] at hvs
      have h0 := dropna_keys_not_na hdn k hk vs0 hsrc
      rw [← Option.some.inj hvs, fillVals_of_no_na h0] at hv
      exact h0 v hv
  have hkeysome : ∀ k ∈ columnas_clave, (getCol u k).isSome = true := by
    intro k hk
    have h2 := List.all_eq_true.mp hg k hk
    rw [hu, getCol_fillna, htp, getCol_filterRows]
    cases hsrc : getCol t2 k with
    | none => rw [hsrc] at h2; simp at h2
    | some vs0 => simp
  have hdropid : dropnaSubset columnas_clave u = Except.ok u := by
    rw [dropnaSubset, if_pos (List.all_eq_true.mpr hkeysome)]
    have hfilter : filterRows u (keepRow u columnas_clave) = u := by
      apply filterRows_eq_self
      intro c hcmem
      apply filterIdx_all
      intro j hj
      rw [Nat.zero_add, keepRow, List.all_eq_true]
      intro k hk
      cases hsrc : getCol u k with
      | none => simp [hsrc]
      | some vsk =>
        simp only [hsrc]
        have hmemk : (k, vsk) ∈ u.cols := getVals_mem hsrc
        have hlen : vsk.length = c.2.length := by
          simpa using wfT_lengths hwf (k, vsk) hmemk c hcmem
        have hvmem : vsk.getD j Val.na ∈ vsk :=
          getD_mem_of_lt vsk j Val.na (by rw [hlen]; exact hj)
        have hna := hkeyna k hk vsk hsrc _ hvmem
        rw [hna]
        decide
    rw [hfilter]
  have hfill2 : fillna u = u := by
    rw [hu, fillna_idem]
  simp only [limpiar_datos, limpiar_pre, hfeu, hdropid, hfill2]

/-- Witness for C7 amended: a concrete cleaned table with no drop-list
column is a fixed point of the Cleaner. -/
theorem limpiar_datos_idempotente_sin_drop_witness :
    limpiar_datos tW7u = Except.ok tW7u :=
  limpiar_datos_idempotente_sin_drop tW7 tW7u (by decide) (by decide) (by decide)

end EdaBancarios
